import Mathlib

/-!
Verification development for the ABP signal viewer's numeric pipeline
(`models/abp_model.py`, `controllers/main_controller.py`,
`utils/helper_functions.py`).

Embedding conventions:
* a signal sample is `Option ℚ`: `none` is a missing sample (IEEE NaN in the
  source), `some v` a finite value.  All float comparisons with NaN are false,
  which is what the `Option` orderings below implement;
* numpy arrays become `List`s, float arithmetic becomes exact `ℚ` arithmetic
  (`ℝ` only where the source takes a square root);
* a fallible routine that returns `None` (after logging) in the source returns
  `Option` here.
-/

/-- Float comparison `a < b` where either side may be NaN (`none`): any
comparison involving NaN is false. -/
def optLtB (a b : Option ℚ) : Bool :=
  match a, b with
  | some x, some y => decide (x < y)
  | _, _ => false

/-- Float comparison `a ≥ b` where either side may be NaN (`none`). -/
def optGeB (a b : Option ℚ) : Bool :=
  match a, b with
  | some x, some y => decide (y ≤ x)
  | _, _ => false

/-- The non-missing (non-NaN) values of a signal, in order. -/
def validVals (s : List (Option ℚ)) : List ℚ :=
  s.filterMap id

/-- Whether a sample is inside `[mn, mx]`; a missing sample never is
(`NaN >= mn` and `NaN <= mx` are both false in the source's mask). -/
def sampleInRange (mn mx : ℚ) (o : Option ℚ) : Bool :=
  match o with
  | some v => decide (mn ≤ v) && decide (v ≤ mx)
  | none => false

/-- `ABPModel.apply_value_range_filter` (abp_model.py:207-219): builds the mask
`(signal >= min_val) & (signal <= max_val)`; if no sample satisfies it,
returns `None`; otherwise copies the signal and overwrites the unmasked
samples with NaN. -/
def apply_value_range_filter (s : List (Option ℚ)) (mn mx : ℚ) :
    Option (List (Option ℚ)) :=
  if s.any (sampleInRange mn mx) then
    some (s.map (fun o => if sampleInRange mn mx o then o else none))
  else
    none

/-- `validate_value_range` (helper_functions.py:28-32). -/
def validate_value_range (mn mx : ℚ) : Bool :=
  decide (mn < mx)

/-- C5: for bounds with min < max the range filter preserves length, passes
in-range samples through unchanged, replaces out-of-range samples by missing
ones, and fails exactly when no sample of the input lies within the bounds. -/
theorem C5_range_filter (s : List (Option ℚ)) (mn mx : ℚ) (_hmm : mn < mx) :
    (∀ ps, apply_value_range_filter s mn mx = some ps →
      ps.length = s.length ∧
      ∀ i, i < s.length →
        (sampleInRange mn mx (s.getD i none) = true →
            ps.getD i none = s.getD i none) ∧
        (sampleInRange mn mx (s.getD i none) = false →
            ps.getD i none = none)) ∧
    (apply_value_range_filter s mn mx = none ↔
      ∀ o ∈ s, sampleInRange mn mx o = false) := by
  constructor
  · intro ps hps
    unfold apply_value_range_filter at hps
    split at hps
    · cases hps
      refine ⟨List.length_map _ _, ?_⟩
      intro i hi
      have hgd : (s.map (fun o => if sampleInRange mn mx o then o else none)).getD i none
          = (fun o => if sampleInRange mn mx o then o else none) (s.getD i none) := by
        have h1 : s.getD i none = s[i] := List.getD_eq_getElem s none hi
        have hlen : i < (s.map (fun o => if sampleInRange mn mx o then o else none)).length := by
          simpa using hi
        have h2 := List.getD_eq_getElem
          (s.map (fun o => if sampleInRange mn mx o then o else none)) none hlen
        rw [h2, List.getElem_map, h1]
      constructor
      · intro hin
        rw [hgd]
        show (if sampleInRange mn mx (s.getD i none) = true then s.getD i none else none)
            = s.getD i none
        rw [if_pos hin]
      · intro hout
        rw [hgd]
        show (if sampleInRange mn mx (s.getD i none) = true then s.getD i none else none)
            = none
        rw [if_neg (fun hc => by rw [hc] at hout; cases hout)]
    · exact absurd hps (by simp)
  · unfold apply_value_range_filter
    constructor
    · intro h o ho
      split at h
      · exact absurd h (by simp)
      · rename_i hany
        have := List.any_eq_true.not.mp hany
        push_neg at this
        have h2 := this o ho
        simpa using h2
    · intro h
      have : s.any (sampleInRange mn mx) = false := by
        rw [List.any_eq_false]
        intro o ho
        simp [h o ho]
      simp [this]

/-- Witness for C5 at a concrete input: bounds `[0, 10]` on
`[some 5, some 20, none]` keep the `5`, blank the `20`, keep the gap. -/
theorem C5_range_filter_witness :
    apply_value_range_filter [some 5, some 20, none] 0 10 =
      some [some 5, none, none] ∧
    ([some 5, none, none] : List (Option ℚ)).length
      = ([some 5, some 20, none] : List (Option ℚ)).length ∧
    ([some 5, none, none] : List (Option ℚ)).getD 0 none
      = ([some 5, some 20, none] : List (Option ℚ)).getD 0 none ∧
    ([some 5, none, none] : List (Option ℚ)).getD 1 none = none := by
  have heq : apply_value_range_filter [some 5, some 20, none] 0 10
      = some [some 5, none, none] := by decide
  have h := (C5_range_filter [some 5, some 20, none] 0 10 (by norm_num)).1
    [some 5, none, none] heq
  exact ⟨heq, h.1, (h.2 0 (by norm_num)).1 (by decide),
    (h.2 1 (by norm_num)).2 (by decide)⟩

/-- NaN-propagating multiplication of a sample by a kernel coefficient
(`NaN * c = NaN`). -/
def optMulC (o : Option ℚ) (c : ℚ) : Option ℚ :=
  o.map (fun v => v * c)

/-- NaN-propagating addition (`NaN + x = NaN`). -/
def optAdd : Option ℚ → Option ℚ → Option ℚ
  | some a, some b => some (a + b)
  | _, _ => none

/-- Element `k` of numpy's full convolution of signal `a` with the (finite,
NaN-free) kernel `v`: the sum over kernel taps `i` of `a[k-i] * v[i]`, with
taps falling outside the signal contributing `0` (zero padding) and any
missing signal sample poisoning the whole sum. -/
def convFullElem (a : List (Option ℚ)) (v : List ℚ) (k : ℕ) : Option ℚ :=
  ((List.range v.length).map (fun i =>
    if i ≤ k ∧ k - i < a.length then optMulC (a.getD (k - i) none) (v.getD i 0)
    else some 0)).foldl optAdd (some 0)

/-- `np.convolve(a, v, mode='same')`: raises (`none`) when either operand is
empty; otherwise the centered `max(M,N)` values of the length `M+N-1` full
convolution, starting at offset `(min(M,N)-1)/2`. -/
def npConvolveSame (a : List (Option ℚ)) (v : List ℚ) :
    Option (List (Option ℚ)) :=
  if a.isEmpty || v.isEmpty then none
  else
    some ((((List.range (a.length + v.length - 1)).map (convFullElem a v)).drop
      ((min a.length v.length - 1) / 2)).take (max a.length v.length))

/-- `RunningMeanFilter.apply` (abp_model.py:52-63): rejects `window_size < 1`,
otherwise convolves with the uniform kernel `ones(window)/window` in `same`
mode; any exception (in particular numpy's rejection of an empty operand)
makes it return `None`. -/
def runningMeanApply (window_size : ℕ) (s : List (Option ℚ)) :
    Option (List (Option ℚ)) :=
  if window_size < 1 then none
  else npConvolveSame s (List.replicate window_size (1 / (window_size : ℚ)))

/-- `GaussianFilter.apply`'s parameter check (abp_model.py:75-100): rejects
`fwhm <= 0`; the kernel construction and convolution proper are irrational
(they involve `exp`), so they are kept abstract as `conv`. -/
def gaussianApply (conv : ℚ → List (Option ℚ) → ℚ → Option (List (Option ℚ)))
    (fwhm : ℚ) (s : List (Option ℚ)) (fs : ℚ) : Option (List (Option ℚ)) :=
  if fwhm ≤ 0 then none else conv fwhm s fs

/-- Post-clamp low cutoff of `ButterworthFilter.apply` (abp_model.py:30-32):
`low = max(0.001, min(lowcut, nyquist - 0.001))` with `nyquist = fs / 2`. -/
def butterLow (lowcut fs : ℚ) : ℚ :=
  max (1 / 1000) (min lowcut (fs / 2 - 1 / 1000))

/-- Post-clamp high cutoff of `ButterworthFilter.apply` (abp_model.py:33):
`high = max(low + 0.001, min(highcut, nyquist - 0.001))`. -/
def butterHigh (lowcut highcut fs : ℚ) : ℚ :=
  max (butterLow lowcut fs + 1 / 1000) (min highcut (fs / 2 - 1 / 1000))

/-- The guard at abp_model.py:34: the filter raises its configuration error
exactly when `low >= high` after clamping. -/
def butterConfigError (lowcut highcut fs : ℚ) : Bool :=
  decide (butterHigh lowcut highcut fs ≤ butterLow lowcut fs)

/-- `ButterworthFilter.apply` (abp_model.py:27-43): clamp, guard, then the
design/filtfilt numerics, which are kept abstract as `filtfilt` (they can
themselves fail, e.g. when the clamped `high` reaches Nyquist, hence the
`Option` result). -/
def butterworthApply
    (filtfilt : ℚ → ℚ → ℕ → List (Option ℚ) → ℚ → Option (List (Option ℚ)))
    (lowcut highcut : ℚ) (order : ℕ) (s : List (Option ℚ)) (fs : ℚ) :
    Option (List (Option ℚ)) :=
  if butterConfigError lowcut highcut fs then none
  else filtfilt (butterLow lowcut fs) (butterHigh lowcut highcut fs) order s fs

/-- C4 counterexample: the claim asserts a `lowcut/highcut/samplingRate`
combination exists whose post-clamp cutoffs satisfy `low >= high`; there is
none, because the clamp forces `high >= low + 0.001`. -/
theorem C4_counterexample :
    ¬ ∃ lc hc fs : ℚ, butterConfigError lc hc fs = true := by
  rintro ⟨lc, hc, fs, h⟩
  rw [butterConfigError, decide_eq_true_iff] at h
  have h2 : butterLow lc fs + 1 / 1000 ≤ butterLow lc fs :=
    le_trans (le_max_left _ _) h
  linarith

/-- C4 amended: for every `lowcut`, `highcut` and sampling rate, the clamped
cutoffs satisfy `low < high`, so the `FilterConfigError` branch guarded by
`low >= high` is unreachable and the filter never reports that error. -/
theorem C4_clamp_never_errors (lc hc fs : ℚ) :
    butterLow lc fs < butterHigh lc hc fs ∧
      butterConfigError lc hc fs = false := by
  have hlt : butterLow lc fs < butterHigh lc hc fs := by
    have := le_max_left (butterLow lc fs + 1 / 1000)
      (min hc (fs / 2 - 1 / 1000))
    rw [butterHigh]
    linarith
  exact ⟨hlt, by rw [butterConfigError, decide_eq_false_iff_not]; exact not_le.mpr hlt⟩

/-- Element `k` of the window-1 running-mean convolution is the input sample
itself (`0 + s[k] * (1/1)`, with NaN passing through). -/
theorem convFullElem_window_one (s : List (Option ℚ)) (k : ℕ) (hk : k < s.length) :
    convFullElem s [1 / ((1 : ℕ) : ℚ)] k = s.getD k none := by
  have hstep : convFullElem s [1 / ((1 : ℕ) : ℚ)] k
      = optAdd (some 0) (optMulC (s.getD k none) (1 / ((1 : ℕ) : ℚ))) := by
    unfold convFullElem
    have hr : List.range ([1 / ((1 : ℕ) : ℚ)].length) = [0] := rfl
    rw [hr, List.map_cons, List.map_nil, List.foldl_cons, List.foldl_nil]
    simp only [Nat.sub_zero]
    rw [if_pos ⟨Nat.zero_le k, hk⟩]
    rfl
  rw [hstep]
  cases h : s.getD k none with
  | none => rfl
  | some q =>
    show some (0 + q * (1 / ((1 : ℕ) : ℚ))) = some q
    norm_num

/-- C9 amended: for every non-empty input signal, the Running Mean filter with
`window_size = 1` returns the input unchanged (missing samples included). -/
theorem C9_running_mean_identity (s : List (Option ℚ)) (hs : s ≠ []) :
    runningMeanApply 1 s = some s := by
  have hpos : 0 < s.length := List.length_pos.mpr hs
  have h1le : 1 ≤ s.length := hpos
  unfold runningMeanApply npConvolveSame
  rw [if_neg (by norm_num)]
  rw [if_neg (by simp [List.isEmpty_iff, hs])]
  simp only [List.length_replicate, List.replicate_one, List.length_cons,
    List.length_nil, Nat.zero_add, Nat.add_sub_cancel,
    min_eq_right h1le, max_eq_left h1le, Nat.sub_self, Nat.zero_div,
    List.drop_zero]
  congr 1
  have hlen : ((List.range s.length).map (convFullElem s [1 / ((1 : ℕ) : ℚ)])).length
      = s.length := by simp
  rw [List.take_of_length_le (le_of_eq hlen)]
  apply List.ext_getElem
  · simp
  · intro k hk1 hk2
    have hk : k < s.length := by simpa using hk2
    simp only [List.getElem_map, List.getElem_range]
    rw [convFullElem_window_one s k hk]
    exact List.getD_eq_getElem s none hk

/-- C9 counterexample: on the empty signal, window-1 running mean returns
`None` (numpy raises on an empty convolution operand) rather than the input
unchanged. -/
theorem C9_counterexample :
    runningMeanApply 1 ([] : List (Option ℚ)) = none ∧
      runningMeanApply 1 ([] : List (Option ℚ)) ≠ some [] := by
  exact ⟨by decide, by decide⟩

/-- Witness for C9 at a concrete input (a gap sample included). -/
theorem C9_witness :
    runningMeanApply 1 [some 3, none, some 5] = some [some 3, none, some 5] :=
  C9_running_mean_identity [some 3, none, some 5] (by decide)

/-- `ABPModel.calculate_hr` (abp_model.py:271-281): with fewer than two peaks
both series are empty; otherwise `rr = np.diff(peaks) / fs` and
`hr = 60 / rr` elementwise.  Returns `(hr, rr)` as the source does. -/
def calculate_hr (peaks : List ℕ) (fs : ℚ) : List ℚ × List ℚ :=
  if peaks.length < 2 then ([], [])
  else
    let rr := (peaks.zip peaks.tail).map (fun p => ((p.2 : ℚ) - (p.1 : ℚ)) / fs)
    (rr.map (fun r => 60 / r), rr)

/-- `np.diff` over a rational series. -/
def diffQ (l : List ℚ) : List ℚ :=
  (l.zip l.tail).map (fun p => p.2 - p.1)

/-- `ABPModel.compute_hrv` (abp_model.py:283-295): RMSSD of the RR series in
milliseconds, `sqrt(mean(diff_rr ** 2)) * 1000`, and `0` when there are fewer
than two RR intervals. -/
noncomputable def compute_hrv (rr : List ℚ) : ℝ :=
  if rr.length < 2 then 0
  else
    Real.sqrt ((((diffQ rr).map (fun d => d ^ 2)).sum / (((diffQ rr).length : ℕ) : ℚ) : ℚ) : ℝ)
      * 1000

/-- numpy `nanmean`: mean of the non-NaN values; NaN (`none`) when there are
none. -/
def nanmean (l : List (Option ℚ)) : Option ℚ :=
  if validVals l = [] then none
  else some ((validVals l).sum / ((validVals l).length : ℚ))

/-- numpy `nanmin`: minimum of the non-NaN values; NaN (`none`) when there
are none. -/
def nanminQ (l : List (Option ℚ)) : Option ℚ :=
  match validVals l with
  | [] => none
  | h :: t => some (t.foldl min h)

/-- `ABPModel.calculate_pp` (abp_model.py:297-306): `0` for an empty signal or
empty peak list (and for the caught IndexError of an out-of-bounds peak);
otherwise `nanmean(signal[peaks]) - nanmin(signal)`, which is NaN (`none`)
when every selected sample, or every sample, is missing. -/
def calculate_pp (signal : List (Option ℚ)) (peaks : List ℕ) : Option ℚ :=
  if signal.length = 0 ∨ peaks.length = 0 then some 0
  else if peaks.any (fun i => signal.length ≤ i) then some 0
  else
    match nanmean (peaks.map (fun i => signal.getD i none)), nanminQ signal with
    | some a, some b => some (a - b)
    | _, _ => none

/-- `ABPModel.assess_sqi` (abp_model.py:308-326): `0` with fewer than 2
samples or fewer than 2 valid samples or a zero maximum; otherwise
`clamp(1 - mean(|diff(valid)|) / max(valid), 0, 1)`. -/
def assess_sqi (s : List (Option ℚ)) : ℚ :=
  if s.length < 2 then 0
  else
    match validVals s with
    | [] => 0
    | [_] => 0
    | h :: t =>
      let avg_der := (((h :: t).zip t).map (fun p => |p.2 - p.1|)).sum
        / ((t.length : ℕ) : ℚ)
      let mx := t.foldl max h
      if mx = 0 then 0 else max 0 (min (1 - avg_der / mx) 1)

/-- C7: the worked metrics example of the spec, plus the fewer-than-two-RR
degenerate case of HRV. -/
theorem C7_metrics_example :
    calculate_hr [100, 150, 225] 100 = ([120, 80], [1/2, 3/4]) ∧
    diffQ [1/2, 3/4] = [1/4] ∧
    compute_hrv [1/2, 3/4] = 250 ∧
    (∀ rr : List ℚ, rr.length < 2 → compute_hrv rr = 0) := by
  refine ⟨?_, ?_, ?_, ?_⟩
  · rw [calculate_hr]
    rw [if_neg (by decide)]
    norm_num [List.zip_cons_cons]
  · rw [diffQ]
    norm_num [List.zip_cons_cons]
  · unfold compute_hrv
    rw [if_neg (by decide)]
    have h1 : (((diffQ [1/2, 3/4]).map (fun d => d ^ 2)).sum
        / (((diffQ [1/2, 3/4]).length : ℕ) : ℚ) : ℚ) = 1/16 := by
      rw [diffQ]
      norm_num [List.zip_cons_cons]
    rw [h1]
    have h2 : ((1/16 : ℚ) : ℝ) = (1/4 : ℝ) ^ 2 := by norm_num
    rw [h2, Real.sqrt_sq (by norm_num : (0:ℝ) ≤ 1/4)]
    norm_num
  · intro rr h
    unfold compute_hrv
    rw [if_pos h]

/-- Witness for C7's degenerate conjunct at the empty RR series. -/
theorem C7_witness : compute_hrv [] = 0 :=
  C7_metrics_example.2.2.2 [] (by decide)

/-- A left fold of `min` never exceeds its initial value. -/
theorem foldl_min_le_init (l : List ℚ) (i : ℚ) : l.foldl min i ≤ i := by
  induction l generalizing i with
  | nil => exact le_refl i
  | cons a t ih => exact le_trans (ih (min i a)) (min_le_left i a)

/-- A left fold of `min` is a lower bound of the folded list (head included). -/
theorem foldl_min_le (t : List ℚ) : ∀ h x, x ∈ h :: t → t.foldl min h ≤ x := by
  induction t with
  | nil =>
    intro h x hx
    rcases List.mem_singleton.mp hx with rfl
    exact le_refl x
  | cons a t2 ih =>
    intro h x hx
    rcases List.mem_cons.mp hx with rfl | hx2
    · exact le_trans (le_trans (foldl_min_le_init t2 (min x a)) (min_le_left x a))
        (le_refl x)
    · rcases List.mem_cons.mp hx2 with rfl | hx3
      · exact le_trans (le_trans (foldl_min_le_init t2 (min h x)) (min_le_right h x))
          (le_refl x)
      · exact ih (min h a) x (List.mem_cons_of_mem _ hx3)

/-- A common lower bound of a list is a lower bound of its sum scaled by the
length. -/
theorem mul_length_le_sum (l : List ℚ) (m : ℚ) (hall : ∀ x ∈ l, m ≤ x) :
    m * (l.length : ℚ) ≤ l.sum := by
  induction l with
  | nil => simp
  | cons a t ih =>
    have ha : m ≤ a := hall a (List.mem_cons_self a t)
    have ht : m * (t.length : ℚ) ≤ t.sum :=
      ih (fun x hx => hall x (List.mem_cons_of_mem a hx))
    simp only [List.length_cons, List.sum_cons]
    push_cast
    linarith

/-- A common lower bound of a non-empty list is a lower bound of its mean. -/
theorem le_mean_of_forall_le (l : List ℚ) (m : ℚ) (hne : l ≠ [])
    (hall : ∀ x ∈ l, m ≤ x) : m ≤ l.sum / (l.length : ℚ) := by
  have hpos : (0 : ℚ) < (l.length : ℚ) := by
    have := List.length_pos.mpr hne
    exact_mod_cast this
  rw [le_div_iff₀ hpos]
  exact mul_length_le_sum l m hall

/-- Membership transfer: a value appearing as `some x` in a signal appears in
its valid values. -/
theorem mem_validVals_of_some {s : List (Option ℚ)} {x : ℚ}
    (h : some x ∈ s) : x ∈ validVals s :=
  List.mem_filterMap.mpr ⟨some x, h, rfl⟩

/-- C8 counterexample: `[some 0, none]` has a valid sample and `[1]` is a
non-empty in-bounds peak set, yet PP is NaN (`none`), not a number `>= 0`;
likewise an all-missing signal with a peak gives NaN, not `0`. -/
theorem C8_counterexample :
    validVals [some 0, none] ≠ [] ∧
    (∀ i ∈ ([1] : List ℕ), i < ([some 0, none] : List (Option ℚ)).length) ∧
    calculate_pp [some 0, none] [1] = none ∧
    calculate_pp [none] [0] ≠ some 0 := by
  refine ⟨by decide, by decide, by decide, by decide⟩

/-- C8 amended: PP is a number `>= 0` whenever the peaks are in bounds and at
least one peak indexes a valid sample; PP is `0` for an empty peak set or an
empty signal.  (When every peak hits a missing sample the source yields NaN
instead, as the counterexample shows.) -/
theorem C8_pp_amended :
    (∀ (s : List (Option ℚ)) (peaks : List ℕ),
      (∀ i ∈ peaks, i < s.length) →
      (∃ i ∈ peaks, (s.getD i none).isSome) →
      ∃ v, calculate_pp s peaks = some v ∧ 0 ≤ v) ∧
    (∀ s : List (Option ℚ), calculate_pp s [] = some 0) ∧
    (∀ peaks : List ℕ, calculate_pp [] peaks = some 0) := by
  refine ⟨?_, ?_, ?_⟩
  · intro s peaks hb hv
    obtain ⟨i0, hi0mem, hi0some⟩ := hv
    obtain ⟨v0, hv0⟩ := Option.isSome_iff_exists.mp hi0some
    have hi0lt : i0 < s.length := hb i0 hi0mem
    have hsne : s.length ≠ 0 := by omega
    have hpne : peaks.length ≠ 0 := by
      intro hc
      rw [List.length_eq_zero] at hc
      subst hc
      cases hi0mem
    have hsome_mem : some v0 ∈ s := by
      have := List.getD_eq_getElem s none hi0lt
      rw [this] at hv0
      rw [← hv0]
      exact List.getElem_mem hi0lt
    unfold calculate_pp
    rw [if_neg (by push_neg; exact ⟨hsne, hpne⟩)]
    rw [if_neg ?hbound]
    case hbound =>
      intro hc
      rw [List.any_eq_true] at hc
      obtain ⟨j, hjmem, hj⟩ := hc
      have := hb j hjmem
      simp only [decide_eq_true_eq] at hj
      omega
    have hsv_mem : v0 ∈ validVals (peaks.map (fun i => s.getD i none)) := by
      apply mem_validVals_of_some
      rw [← hv0]
      exact List.mem_map_of_mem _ hi0mem
    have hsvne : validVals (peaks.map (fun i => s.getD i none)) ≠ [] :=
      List.ne_nil_of_mem hsv_mem
    have hvalne : validVals s ≠ [] :=
      List.ne_nil_of_mem (mem_validVals_of_some hsome_mem)
    rw [nanmean, if_neg hsvne]
    rcases hh : validVals s with _ | ⟨h, t⟩
    · exact absurd hh hvalne
    · rw [nanminQ, hh]
      refine ⟨_, rfl, ?_⟩
      have hmin_lb : ∀ x ∈ validVals (peaks.map (fun i => s.getD i none)),
          t.foldl min h ≤ x := by
        intro x hx
        obtain ⟨o, homem, hoeq⟩ := List.mem_filterMap.mp hx
        obtain ⟨j, hjmem, hjeq⟩ := List.mem_map.mp homem
        have hjlt : j < s.length := hb j hjmem
        have : some x ∈ s := by
          have hg := List.getD_eq_getElem s none hjlt
          rw [hg] at hjeq
          have : s[j] = some x := by rw [hjeq]; exact hoeq
          rw [← this]
          exact List.getElem_mem hjlt
        have hxv : x ∈ validVals s := mem_validVals_of_some this
        rw [hh] at hxv
        exact foldl_min_le t h x hxv
      have := le_mean_of_forall_le _ (t.foldl min h) hsvne hmin_lb
      linarith
  · intro s
    simp [calculate_pp]
  · intro peaks
    simp [calculate_pp]

/-- Witness for C8's amended main part at a concrete input: signal
`[some 5, some 3]`, peak set `[0]`, PP `= 2 >= 0`. -/
theorem C8_witness :
    ∃ v, calculate_pp [some 5, some 3] [0] = some v ∧ 0 ≤ v :=
  C8_pp_amended.1 [some 5, some 3] [0] (by decide)
    ⟨0, List.mem_singleton.mpr rfl, by decide⟩

/-- The valid points of a signal as `(index, value)` pairs, as built by
`interpolate_nans`'s `np.where(~nans)[0]` / `sig_copy[~nans]` (the index is
cast to ℚ since `np.interp` treats it as an abscissa). -/
def validPoints (s : List (Option ℚ)) : List (ℚ × ℚ) :=
  s.enum.filterMap (fun p => p.2.map (fun v => ((p.1 : ℚ), v)))

/-- `np.interp` at one query point `x` over the piecewise-linear function
through the (strictly increasing in abscissa) points `p :: tl`, clamping to
the first/last ordinate outside the data range. -/
def npInterp (x : ℚ) (p : ℚ × ℚ) (tl : List (ℚ × ℚ)) : ℚ :=
  match tl with
  | [] => p.2
  | q :: tl2 =>
    if x ≤ p.1 then p.2
    else if x ≤ q.1 then p.2 + (x - p.1) * (q.2 - p.2) / (q.1 - p.1)
    else npInterp x q tl2

/-- `interpolate_nans` (helper_functions.py:7-26): empty or all-NaN signals
are returned unchanged; otherwise the NaN positions are replaced by
`np.interp` over the valid points and valid samples are copied through. -/
def interpolate_nans (s : List (Option ℚ)) : List (Option ℚ) :=
  if s.length = 0 then s
  else if s.all (fun o => o.isNone) then s
  else
    match validPoints s with
    | [] => s
    | p :: tl =>
      s.enum.map (fun q =>
        match q.2 with
        | some v => some v
        | none => some (npInterp ((q.1 : ℚ)) p tl))

/-- The valid-point list is empty exactly when every sample is missing. -/
theorem validPoints_eq_nil_iff (s : List (Option ℚ)) :
    validPoints s = [] ↔ s.all (fun o => o.isNone) = true := by
  unfold validPoints
  rw [List.filterMap_eq_nil_iff, List.all_eq_true]
  constructor
  · intro h o ho
    obtain ⟨i, hio⟩ := List.mem_iff_getElem?.mp ho
    have hmem : (i, o) ∈ s.enum := List.mem_enum_iff_getElem?.mpr hio
    have h2 := h (i, o) hmem
    rw [Option.map_eq_none'] at h2
    have h3 : o = none := h2
    rw [h3]
    rfl
  · intro h x hx
    have h2 : x.2 ∈ s :=
      List.mem_iff_getElem?.mpr ⟨x.1, List.mem_enum_iff_getElem?.mp hx⟩
    have h3 := h x.2 h2
    rw [Option.isNone_iff_eq_none] at h3
    show x.2.map _ = none
    rw [h3]
    rfl

/-- Valid points have strictly increasing abscissae. -/
theorem validPoints_pairwise (s : List (Option ℚ)) :
    (validPoints s).Pairwise (fun a b => a.1 < b.1) := by
  unfold validPoints
  refine List.Pairwise.filterMap (R := fun a b : ℕ × Option ℚ => a.1 < b.1) _ ?_ ?_
  · intro a b hab x hx y hy
    obtain ⟨va, _, hxa⟩ := Option.map_eq_some'.mp hx
    obtain ⟨vb, _, hyb⟩ := Option.map_eq_some'.mp hy
    rw [← hxa, ← hyb]
    show (a.1 : ℚ) < (b.1 : ℚ)
    exact_mod_cast hab
  · rw [List.pairwise_iff_getElem]
    intro i j hi hj hij
    rw [List.getElem_enum, List.getElem_enum]
    exact hij

/-- In a list with strictly increasing abscissae, every abscissa is bounded by
the last one. -/
theorem pairwise_fst_le_getLast :
    ∀ (l : List (ℚ × ℚ)) (h : l ≠ []), l.Pairwise (fun a b => a.1 < b.1) →
      ∀ y ∈ l, y.1 ≤ (l.getLast h).1 := by
  intro l
  induction l with
  | nil => intro h; exact absurd rfl h
  | cons a t ih =>
    intro h hp y hy
    cases t with
    | nil =>
      rcases List.mem_singleton.mp hy with rfl
      rw [List.getLast_singleton]
    | cons b t2 =>
      rw [List.getLast_cons (List.cons_ne_nil b t2)]
      rcases List.mem_cons.mp hy with rfl | hyt
      · have hb : y.1 < b.1 :=
          (List.pairwise_cons.mp hp).1 b (List.mem_cons_self b t2)
        have hlast := ih (List.cons_ne_nil b t2) (List.pairwise_cons.mp hp).2
          b (List.mem_cons_self b t2)
        linarith
      · exact ih (List.cons_ne_nil b t2) (List.pairwise_cons.mp hp).2 y hyt

/-- Left clamp of `np.interp`: a query at or before the first abscissa yields
the first ordinate. -/
theorem npInterp_of_le (x : ℚ) (p : ℚ × ℚ) (tl : List (ℚ × ℚ)) (h : x ≤ p.1) :
    npInterp x p tl = p.2 := by
  cases tl with
  | nil => rfl
  | cons q tl2 =>
    unfold npInterp
    rw [if_pos h]

/-- Right clamp of `np.interp`: a query beyond every abscissa yields the last
ordinate. -/
theorem npInterp_of_gt :
    ∀ (tl : List (ℚ × ℚ)) (p : ℚ × ℚ) (x : ℚ),
      (∀ y ∈ p :: tl, y.1 < x) →
      npInterp x p tl = ((p :: tl).getLast (List.cons_ne_nil p tl)).2 := by
  intro tl
  induction tl with
  | nil =>
    intro p x _
    rw [List.getLast_singleton]
    rfl
  | cons q tl2 ih =>
    intro p x h
    have hnp : ¬ x ≤ p.1 := not_le.mpr (h p (List.mem_cons_self p (q :: tl2)))
    have hnq : ¬ x ≤ q.1 :=
      not_le.mpr (h q (List.mem_cons_of_mem p (List.mem_cons_self q tl2)))
    unfold npInterp
    rw [if_neg hnp, if_neg hnq]
    rw [List.getLast_cons (List.cons_ne_nil q tl2)]
    exact ih q x (fun y hy => h y (List.mem_cons_of_mem p hy))

/-- An empty or all-missing signal is returned unchanged. -/
theorem interpolate_nans_of_all_none (s : List (Option ℚ))
    (h : s.all (fun o => o.isNone) = true) : interpolate_nans s = s := by
  unfold interpolate_nans
  by_cases h1 : s.length = 0
  · rw [if_pos h1]
  · rw [if_neg h1, if_pos h]

/-- Element access into the mapped interpolation output. -/
theorem enum_map_getD (s : List (Option ℚ)) (g : ℕ × Option ℚ → Option ℚ)
    (i : ℕ) (hi : i < s.length) :
    (s.enum.map g).getD i none = g (i, s[i]) := by
  have hlen : i < (s.enum.map g).length := by
    rw [List.length_map, List.enum_length]
    exact hi
  rw [List.getD_eq_getElem _ _ hlen, List.getElem_map, List.getElem_enum]

/-- C10: gap interpolation preserves length, leaves valid samples unchanged,
returns empty/all-missing inputs unchanged, produces no missing sample when at
least one input sample is valid, and fills missing samples before the first
(after the last) valid point with that edge's value. -/
theorem C10_interpolate_nans (s : List (Option ℚ)) :
    (interpolate_nans s).length = s.length ∧
    (∀ i, i < s.length → (s.getD i none).isSome = true →
      (interpolate_nans s).getD i none = s.getD i none) ∧
    (s.all (fun o => o.isNone) = true → interpolate_nans s = s) ∧
    ((∃ o ∈ s, o.isSome = true) → ∀ i, i < s.length →
      ((interpolate_nans s).getD i none).isSome = true) ∧
    (∀ p tl, validPoints s = p :: tl → ∀ i, i < s.length →
      s.getD i none = none →
      (((i : ℚ) < p.1 → (interpolate_nans s).getD i none = some p.2) ∧
       ((((p :: tl).getLast (List.cons_ne_nil p tl)).1 < (i : ℚ)) →
         (interpolate_nans s).getD i none =
           some (((p :: tl).getLast (List.cons_ne_nil p tl)).2)))) := by
  by_cases hall : s.all (fun o => o.isNone) = true
  · have hid := interpolate_nans_of_all_none s hall
    refine ⟨by rw [hid], ?_, fun _ => hid, ?_, ?_⟩
    · intro i hi _
      rw [hid]
    · intro hex
      exfalso
      obtain ⟨o, ho, hsome⟩ := hex
      have hno := List.all_eq_true.mp hall o ho
      rw [Option.isNone_iff_eq_none] at hno
      rw [hno] at hsome
      cases hsome
    · intro p tl hpt
      exfalso
      have hnil : validPoints s = [] := (validPoints_eq_nil_iff s).mpr hall
      rw [hpt] at hnil
      cases hnil
  · have hlen0 : ¬ s.length = 0 := by
      intro hc
      apply hall
      rw [List.length_eq_zero] at hc
      subst hc
      rfl
    obtain ⟨p, tl, hpt⟩ : ∃ p tl, validPoints s = p :: tl := by
      rcases hv : validPoints s with _ | ⟨p, tl⟩
      · exact absurd ((validPoints_eq_nil_iff s).mp hv) hall
      · exact ⟨p, tl, rfl⟩
    have hshape : interpolate_nans s
        = s.enum.map (fun q =>
            match q.2 with
            | some v => some v
            | none => some (npInterp ((q.1 : ℚ)) p tl)) := by
      unfold interpolate_nans
      rw [if_neg hlen0, if_neg hall, hpt]
    refine ⟨?_, ?_, fun hc => absurd hc hall, ?_, ?_⟩
    · rw [hshape, List.length_map, List.enum_length]
    · intro i hi hsome
      have hgi := List.getD_eq_getElem s none hi
      rw [hgi] at hsome ⊢
      obtain ⟨v, hv⟩ := Option.isSome_iff_exists.mp hsome
      rw [hshape, enum_map_getD s _ i hi, hv]
    · intro _ i hi
      rw [hshape, enum_map_getD s _ i hi]
      cases hv : s[i] with
      | none => rfl
      | some v => rfl
    · intro p2 tl2 hpt2 i hi hnone
      rw [hpt] at hpt2
      cases hpt2
      have hgi := List.getD_eq_getElem s none hi
      rw [hgi] at hnone
      constructor
      · intro hlt
        rw [hshape, enum_map_getD s _ i hi, hnone]
        show some (npInterp ((i : ℚ)) p tl) = some p.2
        rw [npInterp_of_le _ _ _ (le_of_lt hlt)]
      · intro hlast
        rw [hshape, enum_map_getD s _ i hi, hnone]
        show some (npInterp ((i : ℚ)) p tl)
          = some (((p :: tl).getLast (List.cons_ne_nil p tl)).2)
        rw [npInterp_of_gt tl p ((i : ℚ)) ?hbig]
        case hbig =>
          intro y hy
          have hpair : (p :: tl).Pairwise (fun a b => a.1 < b.1) := by
            have := validPoints_pairwise s
            rw [hpt] at this
            exact this
          have hle := pairwise_fst_le_getLast (p :: tl)
            (List.cons_ne_nil p tl) hpair y hy
          linarith

/-- Witness for C10 at `[none, some 2, none, none, some 4, none]`: length kept,
the valid `2` unchanged, the interior gap filled, the leading gap filled with
the first valid value and the trailing gap with the last valid value. -/
theorem C10_witness :
    (interpolate_nans [none, some 2, none, none, some 4, none]).length = 6 ∧
    (interpolate_nans [none, some 2, none, none, some 4, none]).getD 1 none
      = ([none, some 2, none, none, some 4, none] : List (Option ℚ)).getD 1 none ∧
    ((interpolate_nans [none, some 2, none, none, some 4, none]).getD 2 none).isSome
      = true ∧
    (interpolate_nans [none, some 2, none, none, some 4, none]).getD 0 none
      = some 2 ∧
    (interpolate_nans [none, some 2, none, none, some 4, none]).getD 5 none
      = some 4 := by
  have h := C10_interpolate_nans [none, some 2, none, none, some 4, none]
  have hvp : validPoints [none, some 2, none, none, some 4, none]
      = [((1 : ℚ), 2), ((4 : ℚ), 4)] := by rfl
  have hedge := h.2.2.2.2 ((1 : ℚ), 2) [((4 : ℚ), 4)] hvp
  refine ⟨by simpa using h.1, h.2.1 1 (by norm_num) (by decide),
    h.2.2.2.1 ⟨some 2, by decide, rfl⟩ 2 (by norm_num), ?_, ?_⟩
  · exact (hedge 0 (by norm_num) (by decide)).1 (by norm_num)
  · exact (hedge 5 (by norm_num) (by decide)).2
      (by show (4 : ℚ) < ((5 : ℕ) : ℚ); norm_num)

/-- Inner plateau scan of scipy's `_local_maxima_1d` (the backend of
`find_peaks`): starting at `j`, the first index that reaches `iMax` or whose
value differs from `v` (a NaN compares unequal to everything and stops the
scan).  The `fuel` argument is only a structural-recursion counter; any
`fuel >= iMax - j` gives the loop's behaviour. -/
def scanAhead (x : ℕ → Option ℚ) (iMax : ℕ) (v : ℚ) : ℕ → ℕ → ℕ
  | 0, j => j
  | fuel + 1, j =>
    if j < iMax ∧ x j = some v then scanAhead x iMax v fuel (j + 1) else j

/-- Main loop of scipy's `_local_maxima_1d` from index `i` with
`iMax = n - 1`: a sample strictly above its left neighbour opens a candidate
plateau; if the value after the plateau is strictly below, the plateau's
midpoint is a local maximum and the scan resumes past the plateau.  NaNs
(`none`) can never be maxima and never extend a plateau.  `fuel` is a
structural-recursion counter; any `fuel >= iMax - i` gives the loop's
behaviour. -/
def lmLoop (x : ℕ → Option ℚ) (iMax : ℕ) : ℕ → ℕ → List ℕ
  | 0, _ => []
  | fuel + 1, i =>
    if i < iMax then
      match x i with
      | some v =>
        if optLtB (x (i - 1)) (some v) then
          let ia := scanAhead x iMax v iMax (i + 1)
          if optLtB (x ia) (some v) then
            ((i + (ia - 1)) / 2) :: lmLoop x iMax fuel (ia + 1)
          else lmLoop x iMax fuel (i + 1)
        else lmLoop x iMax fuel (i + 1)
      | none => lmLoop x iMax fuel (i + 1)
    else []

/-- scipy `_local_maxima_1d(x)`: interior local maxima (plateau midpoints),
scanning indices `1 .. n-2`. -/
def localMaxima (s : List (Option ℚ)) : List ℕ :=
  lmLoop (fun i => s.getD i none) (s.length - 1) s.length 1

/-- numpy `nanpercentile(s, p)` with the default linear interpolation: sort
the valid values ascending, let `q = (n-1) * p/100`, and interpolate between
the neighbouring order statistics; NaN (`none`) when no value is valid. -/
def nanpercentile (s : List (Option ℚ)) (p : ℚ) : Option ℚ :=
  let v := List.insertionSort (fun a b => a ≤ b) (validVals s)
  match v with
  | [] => none
  | _ :: _ =>
    let n := v.length
    let q := ((n - 1 : ℕ) : ℚ) * p / 100
    let fl := (Int.floor q).toNat
    if fl + 1 < n then
      some (v.getD fl 0 + (q - (fl : ℚ)) * (v.getD (fl + 1) 0 - v.getD fl 0))
    else some (v.getD (n - 1) 0)

/-- scipy `find_peaks`'s height filter: keep peaks with `x[peak] >= hmin`;
false whenever either side is NaN. -/
def heightFilter (s : List (Option ℚ)) (thr : Option ℚ) (peaks : List ℕ) :
    List ℕ :=
  peaks.filter (fun i => optGeB (s.getD i none) thr)

/-- One sweep step of scipy `_select_by_peak_distance`: if the currently
processed position `j` is already removed it does nothing; otherwise it
removes every other position whose peak lies closer than `d` samples.  (The
source's two inner `while` loops stop at the first far-enough neighbour,
which over a sorted peak list removes exactly this set.) -/
def dsStep (peaks : List ℕ) (d : ℕ) (removed : List Bool) (j : ℕ) : List Bool :=
  if removed.getD j false then removed
  else
    (List.range removed.length).map (fun k =>
      removed.getD k false ||
        (decide (k ≠ j) && decide (Nat.dist (peaks.getD k 0) (peaks.getD j 0) < d)))

/-- scipy's processing order for `_select_by_peak_distance`:
`np.argsort(priority)` is a stable ascending sort of the positions by height,
and the sweep iterates it from the end — highest peak first and, among equal
heights, the later position first. -/
def dsOrder (hts : List ℚ) (m : ℕ) : List ℕ :=
  (List.insertionSort (fun a b => hts.getD a 0 ≤ hts.getD b 0)
    (List.range m)).reverse

/-- scipy `_select_by_peak_distance(peaks, priority, distance)`: sweep the
positions in priority order, keep a surviving position and remove its
too-close neighbours; return the kept peaks in index order. -/
def selectByPeakDistance (peaks : List ℕ) (hts : List ℚ) (d : ℕ) : List ℕ :=
  let removed := (dsOrder hts peaks.length).foldl (dsStep peaks d)
      (List.replicate peaks.length false)
  (List.range peaks.length).filterMap (fun k =>
    if removed.getD k false then none else some (peaks.getD k 0))

/-- scipy `find_peaks(x, height=thr, distance=d)` for `d >= 1`: local maxima,
then the height filter at the percentile threshold, then minimum-distance
selection with the peak heights as priorities. -/
def findPeaksCore (s : List (Option ℚ)) (pct : ℚ) (d : ℕ) : List ℕ :=
  let cand := heightFilter s (nanpercentile s pct) (localMaxima s)
  selectByPeakDistance cand (cand.map (fun i => (s.getD i none).getD 0)) d

/-- scipy `find_peaks` including its guard: `distance < 1` raises
(`ValueError`), which `detect_peaks` turns into a failed run. -/
def find_peaks (s : List (Option ℚ)) (pct : ℚ) (d : ℕ) : Option (List ℕ) :=
  if d < 1 then none else some (findPeaksCore s pct d)

/-- One signal variant of `ABPModel.detect_peaks` (abp_model.py:221-239):
`distance_samples = int(min_distance_sec * fs)` (truncation; non-positive
products give a distance below 1 and hence the error path), then
`find_peaks(sig, height=np.nanpercentile(sig, pct), distance=distance_samples)`. -/
def detect_peaks_on (s : List (Option ℚ)) (pct mds fs : ℚ) : Option (List ℕ) :=
  find_peaks s pct (Int.toNat (Int.floor (mds * fs)))

/-- The plateau scan never moves left. -/
theorem scanAhead_ge (x : ℕ → Option ℚ) (iMax : ℕ) (v : ℚ) :
    ∀ fuel j, j ≤ scanAhead x iMax v fuel j := by
  intro fuel
  induction fuel with
  | zero => intro j; exact le_refl j
  | succ fuel ih =>
    intro j
    simp only [scanAhead]
    split
    · exact le_trans (Nat.le_succ j) (ih (j + 1))
    · exact le_refl j

/-- The plateau scan never passes `iMax` when started at or below it. -/
theorem scanAhead_le (x : ℕ → Option ℚ) (iMax : ℕ) (v : ℚ) :
    ∀ fuel j, j ≤ iMax → scanAhead x iMax v fuel j ≤ iMax := by
  intro fuel
  induction fuel with
  | zero => intro j hj; exact hj
  | succ fuel ih =>
    intro j hj
    simp only [scanAhead]
    split
    · rename_i h
      exact ih (j + 1) h.1
    · exact hj

/-- Every local maximum produced by the scan from `i` lies in `[i, iMax)`. -/
theorem lmLoop_mem_bounds (x : ℕ → Option ℚ) (iMax : ℕ) :
    ∀ fuel i m, m ∈ lmLoop x iMax fuel i → i ≤ m ∧ m < iMax := by
  intro fuel
  induction fuel with
  | zero =>
    intro i m hm
    simp only [lmLoop] at hm
    cases hm
  | succ fuel ih =>
    intro i m hm
    simp only [lmLoop] at hm
    split at hm
    · rename_i hi
      split at hm
      · rename_i v hv
        split at hm
        · split at hm
          · rcases List.mem_cons.mp hm with rfl | hm2
            · have h1 : i + 1 ≤ scanAhead x iMax v iMax (i + 1) :=
                scanAhead_ge x iMax v iMax (i + 1)
              have h2 : scanAhead x iMax v iMax (i + 1) ≤ iMax :=
                scanAhead_le x iMax v iMax (i + 1) hi
              omega
            · have h1 : i + 1 ≤ scanAhead x iMax v iMax (i + 1) :=
                scanAhead_ge x iMax v iMax (i + 1)
              have h3 := ih _ m hm2
              omega
          · have h3 := ih _ m hm
            omega
        · have h3 := ih _ m hm
          omega
      · have h3 := ih _ m hm
        omega
    · cases hm

/-- The local maxima are produced in strictly increasing index order. -/
theorem lmLoop_sorted (x : ℕ → Option ℚ) (iMax : ℕ) :
    ∀ fuel i, (lmLoop x iMax fuel i).Pairwise (· < ·) := by
  intro fuel
  induction fuel with
  | zero =>
    intro i
    simp only [lmLoop]
    exact List.Pairwise.nil
  | succ fuel ih =>
    intro i
    simp only [lmLoop]
    split
    · rename_i hi
      split
      · rename_i v hv
        split
        · split
          · rw [List.pairwise_cons]
            refine ⟨?_, ih _⟩
            intro b hb
            have hbd := lmLoop_mem_bounds x iMax fuel _ b hb
            have h1 : i + 1 ≤ scanAhead x iMax v iMax (i + 1) :=
              scanAhead_ge x iMax v iMax (i + 1)
            omega
          · exact ih _
        · exact ih _
      · exact ih _
    · exact List.Pairwise.nil

/-- Local maxima are interior indices: strictly below `length - 1`. -/
theorem localMaxima_bounds (s : List (Option ℚ)) :
    ∀ m ∈ localMaxima s, m < s.length - 1 :=
  fun m hm => (lmLoop_mem_bounds _ _ _ _ m hm).2

/-- The local maxima list is strictly increasing. -/
theorem localMaxima_sorted (s : List (Option ℚ)) :
    (localMaxima s).Pairwise (· < ·) :=
  lmLoop_sorted _ _ _ _

/-- Indexing into a tabulated boolean list. -/
theorem getD_map_range (f : ℕ → Bool) (n k : ℕ) (hk : k < n) :
    ((List.range n).map f).getD k false = f k := by
  have hlen : k < ((List.range n).map f).length := by
    rw [List.length_map, List.length_range]
    exact hk
  rw [List.getD_eq_getElem _ _ hlen, List.getElem_map, List.getElem_range]

/-- A `true` read through `getD` with default `false` is in range. -/
theorem getD_true_lt_length (l : List Bool) (k : ℕ) (h : l.getD k false = true) :
    k < l.length := by
  by_contra hc
  rw [List.getD_eq_default _ _ (le_of_not_lt hc)] at h
  cases h

/-- The sweep step keeps the removal array's length. -/
theorem dsStep_length (peaks : List ℕ) (d : ℕ) (removed : List Bool) (j : ℕ) :
    (dsStep peaks d removed j).length = removed.length := by
  unfold dsStep
  split
  · rfl
  · rw [List.length_map, List.length_range]

/-- Removal is permanent across one sweep step. -/
theorem dsStep_mono (peaks : List ℕ) (d : ℕ) (removed : List Bool) (j k : ℕ)
    (h : removed.getD k false = true) :
    (dsStep peaks d removed j).getD k false = true := by
  unfold dsStep
  split
  · exact h
  · have hk := getD_true_lt_length removed k h
    rw [getD_map_range _ _ k hk, h, Bool.true_or]

/-- Removal is permanent across the whole sweep. -/
theorem foldl_dsStep_mono (peaks : List ℕ) (d : ℕ) :
    ∀ (ord : List ℕ) (r : List Bool) (k : ℕ), r.getD k false = true →
      (ord.foldl (dsStep peaks d) r).getD k false = true := by
  intro ord
  induction ord with
  | nil => intro r k h; exact h
  | cons a tl ih =>
    intro r k h
    rw [List.foldl_cons]
    exact ih _ k (dsStep_mono peaks d r a k h)

/-- The sweep keeps the removal array's length. -/
theorem foldl_dsStep_length (peaks : List ℕ) (d : ℕ) :
    ∀ (ord : List ℕ) (r : List Bool),
      (ord.foldl (dsStep peaks d) r).length = r.length := by
  intro ord
  induction ord with
  | nil => intro r; rfl
  | cons a tl ih =>
    intro r
    rw [List.foldl_cons, ih, dsStep_length]

/-- Key sweep invariant: a position that was processed and survives the sweep
has removed every other position whose peak lies within the minimum
distance. -/
theorem foldl_dsStep_marks (peaks : List ℕ) (d : ℕ) :
    ∀ (ord : List ℕ) (r0 : List Bool) (j : ℕ), j ∈ ord →
      (ord.foldl (dsStep peaks d) r0).getD j false = false →
      ∀ k, k < r0.length → k ≠ j →
        Nat.dist (peaks.getD k 0) (peaks.getD j 0) < d →
        (ord.foldl (dsStep peaks d) r0).getD k false = true := by
  intro ord
  induction ord with
  | nil => intro r0 j hj; cases hj
  | cons a tl ih =>
    intro r0 j hjmem hjkept k hklen hkne hkdist
    rw [List.foldl_cons] at hjkept ⊢
    by_cases hja : j = a
    · subst hja
      by_cases hr : r0.getD j false = true
      · exfalso
        have hstep : (dsStep peaks d r0 j).getD j false = true :=
          dsStep_mono peaks d r0 j j hr
        have hfin := foldl_dsStep_mono peaks d tl _ j hstep
        rw [hfin] at hjkept
        cases hjkept
      · have hrf : r0.getD j false = false := by
          cases hb : r0.getD j false
          · rfl
          · exact absurd hb hr
        have hmark : (dsStep peaks d r0 j).getD k false = true := by
          unfold dsStep
          rw [if_neg (by rw [hrf]; exact Bool.false_ne_true)]
          rw [getD_map_range _ _ k hklen]
          rw [decide_eq_true hkne, decide_eq_true hkdist, Bool.and_self,
            Bool.or_true]
        exact foldl_dsStep_mono peaks d tl _ k hmark
    · have hjtl : j ∈ tl := by
        rcases List.mem_cons.mp hjmem with h | h
        · exact absurd h hja
        · exact h
      have hlen1 : (dsStep peaks d r0 a).length = r0.length :=
        dsStep_length peaks d r0 a
      exact ih (dsStep peaks d r0 a) j hjtl hjkept k
        (by rw [hlen1]; exact hklen) hkne hkdist

/-- `List.range` with the strong pairwise relation carrying the bounds. -/
theorem pairwise_range_strong (m : ℕ) :
    (List.range m).Pairwise (fun a b => a < b ∧ a < m ∧ b < m) := by
  rw [List.pairwise_iff_getElem]
  intro i j hi hj hij
  rw [List.length_range] at hi hj
  rw [List.getElem_range, List.getElem_range]
  exact ⟨hij, hi, hj⟩

/-- Reading a strictly sorted list at increasing positions gives increasing
values. -/
theorem sorted_getD_lt (peaks : List ℕ) (hsort : peaks.Pairwise (· < ·))
    (k1 k2 : ℕ) (h1 : k1 < peaks.length) (h2 : k2 < peaks.length)
    (hlt : k1 < k2) : peaks.getD k1 0 < peaks.getD k2 0 := by
  rw [List.getD_eq_getElem _ _ h1, List.getD_eq_getElem _ _ h2]
  exact List.pairwise_iff_getElem.mp hsort k1 k2 h1 h2 hlt

/-- Every position below `m` is processed by the sweep order. -/
theorem mem_dsOrder (hts : List ℚ) (m k : ℕ) (hk : k < m) : k ∈ dsOrder hts m := by
  unfold dsOrder
  rw [List.mem_reverse]
  exact ((List.perm_insertionSort _ _).mem_iff).mpr (List.mem_range.mpr hk)

/-- A boolean that is not `true` is `false`. -/
theorem bool_eq_false_of_ne_true {b : Bool} (h : ¬ b = true) : b = false := by
  cases b
  · rfl
  · exact absurd rfl h

/-- The distance-selection sweep returns a subset of the peaks in index order,
with any two surviving peaks at least `d` samples apart. -/
theorem selectByPeakDistance_spec (peaks : List ℕ) (hts : List ℚ) (d : ℕ)
    (hsort : peaks.Pairwise (· < ·)) :
    (selectByPeakDistance peaks hts d).Pairwise (fun a b => a < b ∧ a + d ≤ b) ∧
    ∀ y ∈ selectByPeakDistance peaks hts d, y ∈ peaks := by
  simp only [selectByPeakDistance]
  constructor
  · refine List.Pairwise.filterMap _ ?_ (pairwise_range_strong peaks.length)
    intro k1 k2 hk x hx y hy
    obtain ⟨h12, h1m, h2m⟩ := hk
    rw [Option.mem_def] at hx hy
    by_cases hr1 : ((dsOrder hts peaks.length).foldl (dsStep peaks d)
        (List.replicate peaks.length false)).getD k1 false = true
    · rw [if_pos hr1] at hx
      cases hx
    · rw [if_neg hr1] at hx
      by_cases hr2 : ((dsOrder hts peaks.length).foldl (dsStep peaks d)
          (List.replicate peaks.length false)).getD k2 false = true
      · rw [if_pos hr2] at hy
        cases hy
      · rw [if_neg hr2] at hy
        obtain rfl := Option.some.inj hx
        obtain rfl := Option.some.inj hy
        have hk1f := bool_eq_false_of_ne_true hr1
        have hdist : ¬ Nat.dist (peaks.getD k2 0) (peaks.getD k1 0) < d := by
          intro hclose
          have hmark := foldl_dsStep_marks peaks d (dsOrder hts peaks.length)
            (List.replicate peaks.length false) k1
            (mem_dsOrder hts peaks.length k1 h1m) hk1f k2
            (by rw [List.length_replicate]; exact h2m) (ne_of_gt h12) hclose
          exact hr2 hmark
        have hlt : peaks.getD k1 0 < peaks.getD k2 0 :=
          sorted_getD_lt peaks hsort k1 k2 h1m h2m h12
        refine ⟨hlt, ?_⟩
        simp only [Nat.dist] at hdist
        omega
  · intro y hy
    rw [List.mem_filterMap] at hy
    obtain ⟨k, hkmem, hkeq⟩ := hy
    rw [List.mem_range] at hkmem
    by_cases hr : ((dsOrder hts peaks.length).foldl (dsStep peaks d)
        (List.replicate peaks.length false)).getD k false = true
    · rw [if_pos hr] at hkeq
      cases hkeq
    · rw [if_neg hr] at hkeq
      obtain rfl := Option.some.inj hkeq
      rw [List.getD_eq_getElem _ _ hkmem]
      exact List.getElem_mem hkmem

/-- C6: whenever the detector returns a peak set (for any signal, threshold
percentile and positive minimum distance), the indices are strictly
increasing, in bounds, and consecutive peaks are at least
`floor(minDistanceSeconds * samplingRate)` samples apart (pairwise, hence in
particular consecutively). -/
theorem C6_peak_invariants (s : List (Option ℚ)) (pct mds fs : ℚ) (ps : List ℕ)
    (h : detect_peaks_on s pct mds fs = some ps) :
    ps.Pairwise (fun a b => a < b ∧ a + (Int.floor (mds * fs)).toNat ≤ b) ∧
    ∀ y ∈ ps, y < s.length := by
  unfold detect_peaks_on find_peaks at h
  split at h
  · cases h
  · rw [Option.some.injEq] at h
    subst h
    unfold findPeaksCore
    have hcand_sorted :
        (heightFilter s (nanpercentile s pct) (localMaxima s)).Pairwise (· < ·) :=
      List.Pairwise.filter _ (localMaxima_sorted s)
    obtain ⟨hpair, hsub⟩ := selectByPeakDistance_spec
      (heightFilter s (nanpercentile s pct) (localMaxima s)) _ _ hcand_sorted
    refine ⟨hpair, ?_⟩
    intro y hy
    have hy2 := hsub y hy
    have hy3 : y ∈ localMaxima s := List.mem_of_mem_filter hy2
    have hy4 := localMaxima_bounds s y hy3
    omega

/-- Witness for C6 at `[0, 1, 0]` with percentile 50 and one second of minimum
distance at 1 Hz: the detector returns `[1]`, which satisfies the invariant. -/
theorem C6_witness :
    ([1] : List ℕ).Pairwise
      (fun a b => a < b ∧ a + (Int.floor ((1 : ℚ) * 1)).toNat ≤ b) ∧
    ∀ y ∈ ([1] : List ℕ),
      y < ([some 0, some 1, some 0] : List (Option ℚ)).length :=
  C6_peak_invariants [some 0, some 1, some 0] 50 1 1 [1]
    (by with_unfolding_all rfl)

/-- C3 counterexample: on `[0, 1, 0, 1, 0]` the candidates are the two
equal-height peaks 1 and 3, closer (2 samples) than the minimum distance
`floor(3 * 1) = 3`; the detector keeps the LATER index 3, not the earlier
index 1 that the claim predicts. -/
theorem C3_counterexample :
    localMaxima [some 0, some 1, some 0, some 1, some 0] = [1, 3] ∧
    ([some 0, some 1, some 0, some 1, some 0] : List (Option ℚ)).getD 1 none
      = ([some 0, some 1, some 0, some 1, some 0] : List (Option ℚ)).getD 3 none ∧
    (3 : ℕ) - 1 < 3 ∧
    detect_peaks_on [some 0, some 1, some 0, some 1, some 0] 50 3 1 = some [3] ∧
    detect_peaks_on [some 0, some 1, some 0, some 1, some 0] 50 3 1
      ≠ some [1] := by
  have hdet : detect_peaks_on [some 0, some 1, some 0, some 1, some 0] 50 3 1
      = some [3] := by with_unfolding_all rfl
  refine ⟨by with_unfolding_all rfl, rfl, by norm_num, hdet, ?_⟩
  rw [hdet]
  decide

/-- C3 amended: the minimum-distance policy of the detector's selection sweep
on two conflicting candidates `i < j` (closer than `d`) with heights `a`, `b`:
the taller survives, and on an exact height tie the LATER (higher-index)
candidate survives — numpy's stable `argsort` puts the later equal-height
position at higher priority. -/
theorem C3_two_peak_policy (i j d : ℕ) (a b : ℚ) (hij : i < j) (hd : j - i < d) :
    selectByPeakDistance [i, j] [a, b] d = if b < a then [i] else [j] := by
  have hdij : Nat.dist i j < d := by
    simp only [Nat.dist]
    omega
  have hdji : Nat.dist j i < d := by
    simp only [Nat.dist]
    omega
  have hr2 : List.range 2 = [0, 1] := rfl
  by_cases hab : a ≤ b
  · have horder : dsOrder [a, b] ([i, j] : List ℕ).length = [1, 0] := by
      simp [dsOrder, List.insertionSort, List.orderedInsert, hr2, hab]
    rw [if_neg (not_lt.mpr hab)]
    simp only [selectByPeakDistance, horder]
    have hs1 : dsStep [i, j] d (List.replicate 2 false) 1 = [true, false] := by
      simp [dsStep, hr2, hdij]
    have hs2 : dsStep [i, j] d [true, false] 0 = [true, false] := by
      simp [dsStep]
    simp only [List.length_cons, List.length_nil, List.foldl_cons, List.foldl_nil]
    norm_num
    rw [hs1, hs2, hr2]
    simp [List.filterMap]
  · have horder : dsOrder [a, b] ([i, j] : List ℕ).length = [0, 1] := by
      simp [dsOrder, List.insertionSort, List.orderedInsert, hr2, hab]
    rw [if_pos (not_le.mp hab)]
    simp only [selectByPeakDistance, horder]
    have hs1 : dsStep [i, j] d (List.replicate 2 false) 0 = [false, true] := by
      simp [dsStep, hr2, hdji]
    have hs2 : dsStep [i, j] d [false, true] 1 = [false, true] := by
      simp [dsStep]
    simp only [List.length_cons, List.length_nil, List.foldl_cons, List.foldl_nil]
    norm_num
    rw [hs1, hs2, hr2]
    simp [List.filterMap]

/-- Witness for C3's amended policy at the counterexample's configuration:
positions 1 and 3 with equal heights under distance 3 — the later one (3)
survives. -/
theorem C3_policy_witness :
    selectByPeakDistance [1, 3] [(1 : ℚ), 1] 3 = [3] := by
  have h := C3_two_peak_policy 1 3 3 1 1 (by norm_num) (by norm_num)
  simpa using h

/-- The filter configuration read from the view's widgets
(`set_filter_strategy`, abp_model.py:133-152; the three known types). -/
inductive FilterConfig where
  | butterworth (lowcut highcut : ℚ) (order : ℕ)
  | runningMean (window_size : ℕ)
  | gaussian (fwhm : ℚ)

/-- The numeric externals kept abstract because they are irrational:
`filtfilt` is scipy's `butter` + `filtfilt` on the post-clamp cutoffs (it can
itself raise, e.g. when the clamped high cutoff reaches Nyquist, hence
`Option`), `gaussConv` is the Gaussian kernel construction + convolution. -/
structure NumericExternals where
  filtfilt : ℚ → ℚ → ℕ → List (Option ℚ) → ℚ → Option (List (Option ℚ))
  gaussConv : ℚ → List (Option ℚ) → ℚ → Option (List (Option ℚ))

/-- `FilterStrategy.apply` dispatch over the three strategies. -/
def applyStrategy (ext : NumericExternals) (cfg : FilterConfig)
    (s : List (Option ℚ)) (fs : ℚ) : Option (List (Option ℚ)) :=
  match cfg with
  | .butterworth lc hc od => butterworthApply ext.filtfilt lc hc od s fs
  | .runningMean ws => runningMeanApply ws s
  | .gaussian fwhm => gaussianApply ext.gaussConv fwhm s fs

/-- The mutable analysis state of `ABPModel` (abp_model.py:106-131): the raw
signal and sampling rate, the published filtered signal, both peak sets and
both metrics blocks.  (`filter_strategy` is omitted: every run overwrites it
from the view before use, so it carries no cross-run information relevant
here.) -/
structure SessionState where
  record_loaded : Bool
  abp_signal : Option (List (Option ℚ))
  fs : ℚ
  filtered_signal : Option (List (Option ℚ))
  peaks_original : List ℕ
  peaks_filtered : List ℕ
  hr_original : List ℚ
  rr_intervals_original : List ℚ
  hrv_original : ℝ
  sqi_original : ℚ
  pp_original : Option ℚ
  hr_filtered : List ℚ
  rr_intervals_filtered : List ℚ
  hrv_filtered : ℝ
  sqi_filtered : ℚ
  pp_filtered : Option ℚ

/-- `ABPModel.detect_peaks` (abp_model.py:221-239): fails without a raw
signal; `find_peaks` raises before the first assignment when
`int(min_distance_sec * fs) < 1`, leaving both peak sets untouched; otherwise
both peak sets are recomputed (the filtered one is `[]` when no filtered
signal exists). -/
def detect_peaks (st : SessionState) (pct mds : ℚ) : SessionState × Bool :=
  match st.abp_signal with
  | none => (st, false)
  | some sig =>
    match find_peaks sig pct (Int.toNat (Int.floor (mds * st.fs))) with
    | none => (st, false)
    | some po =>
      let pf := match st.filtered_signal with
        | some fsig => findPeaksCore fsig pct (Int.toNat (Int.floor (mds * st.fs)))
        | none => []
      ({st with peaks_original := po, peaks_filtered := pf}, true)

/-- `ABPModel.calculate_metrics` (abp_model.py:247-269): fails (state
untouched) when no record is loaded; otherwise recomputes every metric field,
with the filtered SQI/PP defaulting to `0` when no filtered signal exists.
(Each derivation catches its own exceptions, so the stage itself cannot fail
past the record check.) -/
noncomputable def calculate_metrics (st : SessionState) : SessionState × Bool :=
  if st.record_loaded = false then (st, false)
  else
    let sig := st.abp_signal.getD []
    let hro := calculate_hr st.peaks_original st.fs
    let hrf := calculate_hr st.peaks_filtered st.fs
    match st.filtered_signal with
    | some f =>
      ({st with
          hr_original := hro.1, rr_intervals_original := hro.2,
          hrv_original := compute_hrv hro.2,
          sqi_original := assess_sqi sig,
          pp_original := calculate_pp sig st.peaks_original,
          hr_filtered := hrf.1, rr_intervals_filtered := hrf.2,
          hrv_filtered := compute_hrv hrf.2,
          sqi_filtered := assess_sqi f,
          pp_filtered := calculate_pp f st.peaks_filtered}, true)
    | none =>
      ({st with
          hr_original := hro.1, rr_intervals_original := hro.2,
          hrv_original := compute_hrv hro.2,
          sqi_original := assess_sqi sig,
          pp_original := calculate_pp sig st.peaks_original,
          hr_filtered := hrf.1, rr_intervals_filtered := hrf.2,
          hrv_filtered := compute_hrv hrf.2,
          sqi_filtered := 0,
          pp_filtered := some 0}, true)

/-- The per-run user parameters read from the view's widgets. -/
structure ApplyParams where
  min_val : ℚ
  max_val : ℚ
  cfg : FilterConfig
  threshold : ℚ
  distance : ℚ

/-- `MainController.apply_parameters` (main_controller.py:156-222): validate
the range bounds, run the range filter and PUBLISH its output as
`filtered_signal` immediately, set the filter strategy, run `apply_filter`
(which filters the RAW `abp_signal`, abp_model.py:196, and on success
overwrites `filtered_signal` again), then `detect_peaks` and
`calculate_metrics`; the first failing stage aborts the rest (the caught
exception shows an error dialog).  The boolean is `true` for a fully
successful run. -/
noncomputable def apply_parameters (ext : NumericExternals) (st : SessionState)
    (p : ApplyParams) : SessionState × Bool :=
  if st.record_loaded = false then (st, false)
  else if validate_value_range p.min_val p.max_val = false then (st, false)
  else
    match apply_value_range_filter (st.abp_signal.getD []) p.min_val p.max_val with
    | none => (st, false)
    | some rngf =>
      if rngf.length = 0 then (st, false)
      else
        let st1 := {st with filtered_signal := some rngf}
        match applyStrategy ext p.cfg (st1.abp_signal.getD []) st1.fs with
        | none => (st1, false)
        | some filt =>
          let st2 := {st1 with filtered_signal := some filt}
          match detect_peaks st2 p.threshold p.distance with
          | (st3, false) => (st3, false)
          | (st3, true) =>
            match calculate_metrics st3 with
            | (st4, false) => (st4, false)
            | (st4, true) => (st4, true)

/-- A failed peak-detection stage leaves the session state untouched. -/
theorem detect_peaks_fail (st : SessionState) (pct mds : ℚ) (st3 : SessionState)
    (h : detect_peaks st pct mds = (st3, false)) : st3 = st := by
  unfold detect_peaks at h
  split at h
  · injection h with h1 _
    exact h1.symm
  · split at h
    · injection h with h1 _
      exact h1.symm
    · injection h with _ h2
      cases h2

/-- A failed metrics stage leaves the session state untouched (it only fails
when no record is loaded). -/
theorem calculate_metrics_fail (st : SessionState) (st4 : SessionState)
    (h : calculate_metrics st = (st4, false)) :
    st4 = st ∧ st.record_loaded = false := by
  unfold calculate_metrics at h
  split at h
  · injection h with h1 _
    exact ⟨h1.symm, by assumption⟩
  · split at h
    · injection h with _ h2
      cases h2
    · injection h with _ h2
      cases h2

/-- A successful peak-detection stage changes only the two peak sets. -/
theorem detect_peaks_success (st : SessionState) (pct mds : ℚ)
    (st3 : SessionState) (h : detect_peaks st pct mds = (st3, true)) :
    st3.record_loaded = st.record_loaded ∧
    st3.abp_signal = st.abp_signal ∧
    st3.fs = st.fs ∧
    st3.filtered_signal = st.filtered_signal := by
  unfold detect_peaks at h
  split at h
  · injection h with _ h2
    cases h2
  · split at h
    · injection h with _ h2
      cases h2
    · injection h with h1 _
      subst h1
      exact ⟨rfl, rfl, rfl, rfl⟩

/-- C1 amended: a failed run aborts all later stages and leaves both peak
sets and both metrics blocks exactly as they were; the filtered signal,
however, is not protected: it is either untouched (failure before or at the
range filter) or already overwritten with the range-filter output (failure at
the denoising stage) or with the strategy output (failure at peak
detection).  A fully successful run replaces everything. -/
theorem C1_failfast_amended (ext : NumericExternals) (st : SessionState)
    (p : ApplyParams) (h : (apply_parameters ext st p).2 = false) :
    (apply_parameters ext st p).1.peaks_original = st.peaks_original ∧
    (apply_parameters ext st p).1.peaks_filtered = st.peaks_filtered ∧
    (apply_parameters ext st p).1.hr_original = st.hr_original ∧
    (apply_parameters ext st p).1.rr_intervals_original
      = st.rr_intervals_original ∧
    (apply_parameters ext st p).1.hrv_original = st.hrv_original ∧
    (apply_parameters ext st p).1.sqi_original = st.sqi_original ∧
    (apply_parameters ext st p).1.pp_original = st.pp_original ∧
    (apply_parameters ext st p).1.hr_filtered = st.hr_filtered ∧
    (apply_parameters ext st p).1.rr_intervals_filtered
      = st.rr_intervals_filtered ∧
    (apply_parameters ext st p).1.hrv_filtered = st.hrv_filtered ∧
    (apply_parameters ext st p).1.sqi_filtered = st.sqi_filtered ∧
    (apply_parameters ext st p).1.pp_filtered = st.pp_filtered ∧
    ((apply_parameters ext st p).1.filtered_signal = st.filtered_signal ∨
     (∃ rngf, apply_value_range_filter (st.abp_signal.getD [])
          p.min_val p.max_val = some rngf ∧
        (apply_parameters ext st p).1.filtered_signal = some rngf) ∨
     (∃ filt, applyStrategy ext p.cfg (st.abp_signal.getD []) st.fs
          = some filt ∧
        (apply_parameters ext st p).1.filtered_signal = some filt)) := by
  rcases hr : apply_parameters ext st p with ⟨res, ok⟩
  rw [hr] at h
  simp only at h ⊢
  simp only [apply_parameters] at hr
  split at hr
  · injection hr with h1 _
    subst h1
    exact ⟨rfl, rfl, rfl, rfl, rfl, rfl, rfl, rfl, rfl, rfl, rfl, rfl,
      Or.inl rfl⟩
  · split at hr
    · injection hr with h1 _
      subst h1
      exact ⟨rfl, rfl, rfl, rfl, rfl, rfl, rfl, rfl, rfl, rfl, rfl, rfl,
        Or.inl rfl⟩
    · split at hr
      · injection hr with h1 _
        subst h1
        exact ⟨rfl, rfl, rfl, rfl, rfl, rfl, rfl, rfl, rfl, rfl, rfl, rfl,
          Or.inl rfl⟩
      · rename_i rngf hrange
        split at hr
        · injection hr with h1 _
          subst h1
          exact ⟨rfl, rfl, rfl, rfl, rfl, rfl, rfl, rfl, rfl, rfl, rfl, rfl,
            Or.inl rfl⟩
        · split at hr
          · -- strategy failed: state is st with filtered_signal := some rngf
            injection hr with h1 _
            subst h1
            exact ⟨rfl, rfl, rfl, rfl, rfl, rfl, rfl, rfl, rfl, rfl, rfl, rfl,
              Or.inr (Or.inl ⟨rngf, hrange, rfl⟩)⟩
          · rename_i filt hstrat
            split at hr
            · -- peak detection failed
              rename_i st3 hdet
              have hst3 := detect_peaks_fail _ _ _ _ hdet
              injection hr with h1 _
              subst h1
              subst hst3
              exact ⟨rfl, rfl, rfl, rfl, rfl, rfl, rfl, rfl, rfl, rfl, rfl,
                rfl, Or.inr (Or.inr ⟨filt, hstrat, rfl⟩)⟩
            · rename_i st3 hdet
              split at hr
              · -- metrics failed: impossible, the record is loaded
                rename_i st4 hmet
                exfalso
                obtain ⟨_, hrec3⟩ := calculate_metrics_fail _ _ hmet
                have hpres := detect_peaks_success _ _ _ _ hdet
                have hst : st.record_loaded = false := by
                  have h1 := hpres.1
                  rw [hrec3] at h1
                  exact h1.symm
                exact absurd hst (by assumption)
              · -- success contradicts the failure hypothesis
                injection hr with _ h2
                rw [← h2] at h
                cases h

/-- Dummy instantiation of the abstract numeric externals; the concrete runs
below use the Running Mean strategy, so these are never reached. -/
def extZero : NumericExternals where
  filtfilt := fun _ _ _ _ _ => none
  gaussConv := fun _ _ _ => none

/-- A loaded session holding previously published results (filtered signal
`[99]`, peaks, metrics) from an earlier successful run. -/
noncomputable def c1State : SessionState where
  record_loaded := true
  abp_signal := some [some 2]
  fs := 1
  filtered_signal := some [some 99]
  peaks_original := [7]
  peaks_filtered := [8]
  hr_original := [70]
  rr_intervals_original := [1]
  hrv_original := 0
  sqi_original := 1
  pp_original := some 3
  hr_filtered := [71]
  rr_intervals_filtered := [2]
  hrv_filtered := 0
  sqi_filtered := 1
  pp_filtered := some 4

/-- Parameters whose filter stage fails: a Running Mean window of 0. -/
def c1Params : ApplyParams where
  min_val := 0
  max_val := 10
  cfg := FilterConfig.runningMean 0
  threshold := 50
  distance := 1

/-- C1 counterexample: the run fails (at the filter-config stage), yet the
session's previously published filtered signal `[99]` has already been
replaced by the range-filter output `[2]` — the previously published results
are NOT all left as they were. -/
theorem C1_counterexample :
    (apply_parameters extZero c1State c1Params).2 = false ∧
    (apply_parameters extZero c1State c1Params).1.filtered_signal
      = some [some 2] ∧
    c1State.filtered_signal = some [some 99] ∧
    (apply_parameters extZero c1State c1Params).1.filtered_signal
      ≠ c1State.filtered_signal := by
  have h2 : (apply_parameters extZero c1State c1Params).1.filtered_signal
      = some [some 2] := by with_unfolding_all rfl
  refine ⟨by with_unfolding_all rfl, h2, rfl, ?_⟩
  rw [h2]
  intro hc
  have : ([some 2] : List (Option ℚ)) = [some 99] := Option.some.inj hc
  have h99 : (some 2 : Option ℚ) = some 99 := by
    injection this
  have : (2 : ℚ) = 99 := Option.some.inj h99
  norm_num at this

/-- Witness for C1's amended theorem at the failing run: the peak sets and
(a representative of) the metrics are left exactly as they were. -/
theorem C1_failfast_witness :
    (apply_parameters extZero c1State c1Params).1.peaks_original
      = c1State.peaks_original ∧
    (apply_parameters extZero c1State c1Params).1.peaks_filtered
      = c1State.peaks_filtered ∧
    (apply_parameters extZero c1State c1Params).1.pp_filtered
      = c1State.pp_filtered := by
  obtain ⟨h1, h2, _, _, _, _, _, _, _, _, _, h12, _⟩ :=
    C1_failfast_amended extZero c1State c1Params (by with_unfolding_all rfl)
  exact ⟨h1, h2, h12⟩

/-- A loaded session whose raw signal has an out-of-range spike (100). -/
noncomputable def c2State : SessionState :=
  { c1State with abp_signal := some [some 1, some 100, some 1] }

/-- Parameters for a fully successful run: range `[0, 10]`, Running Mean with
window 1 (the identity on non-empty signals), percentile 50, distance 1 s. -/
def c2Params : ApplyParams where
  min_val := 0
  max_val := 10
  cfg := FilterConfig.runningMean 1
  threshold := 50
  distance := 1

/-- C2 (code bug record): the range filter masks the spike
(`[1, 100, 1] -> [1, NaN, 1]`), and the claimed data flow would publish the
strategy applied to that output — for window-1 Running Mean, `[1, NaN, 1]`
itself.  The run succeeds, but `apply_filter` hands the strategy the RAW
`abp_signal`, so the published filtered signal is `[1, 100, 1]`, spike
included, not the range-filtered variant. -/
theorem C2_filter_input_bug :
    apply_value_range_filter [some 1, some 100, some 1] 0 10
      = some [some 1, none, some 1] ∧
    runningMeanApply 1 [some 1, none, some 1]
      = some [some 1, none, some 1] ∧
    (apply_parameters extZero c2State c2Params).2 = true ∧
    (apply_parameters extZero c2State c2Params).1.filtered_signal
      = some [some 1, some 100, some 1] ∧
    (apply_parameters extZero c2State c2Params).1.filtered_signal
      ≠ some [some 1, none, some 1] := by
  have h4 : (apply_parameters extZero c2State c2Params).1.filtered_signal
      = some [some 1, some 100, some 1] := by with_unfolding_all rfl
  refine ⟨by decide, by with_unfolding_all rfl, by with_unfolding_all rfl,
    h4, ?_⟩
  rw [h4]
  simp
